import Mathlib

/-!
Shallow embedding of the git-big large-file manager.

The embedding models, directly from the source:
* the Python dict used for the manifest `files` map (ordered association
  list with first-match lookup and in-place replacement on update),
* `RepoConfig.merge` and `App.cmd_custom_merge` (manifest merge driver),
* `App._find_reachable_objects` (history reachability scan),
* `App.cmd_push`, `App.cmd_pull`, `Depot.get`, `Depot.put`, `App._entries`
  over an explicit filesystem/depot state,
* `App._unlock_file`,
* the filter-protocol handshake and per-command processing of
  git_big/filter.py.
-/

namespace GitBig

/-! ### Python dict model

A Python dict is modelled as an association list in insertion order.
`lookup` returns the first binding, `setItem` (`d[k] = v`) replaces the
value in place when the key is present and appends otherwise, `removeKey`
(`del d[k]` / `os.unlink`) drops the first binding. -/

def lookup {α : Type} : List (String × α) → String → Option α
  | [], _ => none
  | (k, v) :: rest, key => if k = key then some v else lookup rest key

def setItem {α : Type} : List (String × α) → String → α → List (String × α)
  | [], key, val => [(key, val)]
  | (k, v) :: rest, key, val =>
    if k = key then (k, val) :: rest else (k, v) :: setItem rest key val

def removeKey {α : Type} : List (String × α) → String → List (String × α)
  | [], _ => []
  | (k, v) :: rest, key => if k = key then rest else (k, v) :: removeKey rest key

abbrev FilesMap := List (String × String)

/-- `dict.update(other)`: iterate the bindings of `other` and set each one
into `cur` (main.py, `RepoConfig.merge`: `self.files.update(other.files)`). -/
def update (cur other : FilesMap) : FilesMap :=
  other.foldl (fun acc kv => setItem acc kv.1 kv.2) cur

def valuesOf (m : FilesMap) : List String := m.map Prod.snd

def keysOf {α : Type} (m : List (String × α)) : List String := m.map Prod.fst

/-- `RepoConfig.merge` (main.py lines 184-185). -/
def RepoConfig.merge (current other : FilesMap) : FilesMap := update current other

/-- `App.cmd_custom_merge` (main.py lines 663-671): parse the "current" and
"other" manifests, merge `other` into `current`, write the result back over
the "current" path.  The returned map is what is serialized. -/
def cmd_custom_merge (current other : FilesMap) : FilesMap :=
  RepoConfig.merge current other

theorem lookup_setItem {α : Type} (m : List (String × α)) (k : String) (v : α)
    (key : String) :
    lookup (setItem m k v) key = if key = k then some v else lookup m key := by
  induction m with
  | nil =>
    simp only [setItem, lookup]
    by_cases h : key = k
    · simp [h]
    · rw [if_neg (fun hh => h hh.symm), if_neg h]
  | cons head tail ih =>
    obtain ⟨k0, v0⟩ := head
    simp only [setItem]
    by_cases h0 : k0 = k
    · subst h0
      simp only [if_pos rfl, lookup]
      by_cases h1 : k0 = key
      · subst h1; simp
      · rw [if_neg h1, if_neg (fun hh => h1 hh.symm), if_neg h1]
    · rw [if_neg h0]
      simp only [lookup]
      by_cases h1 : k0 = key
      · subst h1
        simp [h0]
      · rw [if_neg h1, if_neg h1, ih]

theorem lookup_isSome_iff_mem_keys {α : Type} (m : List (String × α)) (key : String) :
    (lookup m key).isSome = true ↔ key ∈ keysOf m := by
  induction m with
  | nil => simp [lookup, keysOf]
  | cons head tail ih =>
    obtain ⟨k0, v0⟩ := head
    simp only [lookup, keysOf, List.map_cons, List.mem_cons]
    by_cases h : k0 = key
    · subst h; simp
    · rw [if_neg h]
      simp only [keysOf] at ih
      rw [ih]
      constructor
      · exact fun hm => Or.inr hm
      · rintro (hk | hm)
        · exact absurd hk (fun hh => h hh.symm)
        · exact hm

theorem lookup_update (cur other : FilesMap) (key : String)
    (hnd : (keysOf other).Nodup) :
    lookup (update cur other) key =
      if key ∈ keysOf other then lookup other key else lookup cur key := by
  induction other generalizing cur with
  | nil => simp [update, keysOf, lookup]
  | cons head tail ih =>
    obtain ⟨k0, v0⟩ := head
    simp only [keysOf, List.map_cons, List.nodup_cons] at hnd
    have hnd2 : (keysOf tail).Nodup := hnd.2
    have step : update cur ((k0, v0) :: tail) = update (setItem cur k0 v0) tail := rfl
    rw [step, ih _ hnd2]
    by_cases hmem : key ∈ keysOf tail
    · have hk0 : ¬ k0 = key := fun h => hnd.1 (by rw [h]; simpa [keysOf] using hmem)
      have hmem' : key ∈ keysOf ((k0, v0) :: tail) := by
        simp only [keysOf, List.map_cons, List.mem_cons]
        exact Or.inr (by simpa [keysOf] using hmem)
      simp [hmem, hmem', lookup, hk0]
    · rw [if_neg hmem, lookup_setItem]
      by_cases hk : key = k0
      · subst hk
        have hmem' : key ∈ keysOf ((key, v0) :: tail) := by
          simp [keysOf, List.mem_cons]
        simp [hmem', lookup]
      · rw [if_neg hk]
        have hmem' : ¬ key ∈ keysOf ((k0, v0) :: tail) := by
          simp only [keysOf, List.map_cons, List.mem_cons]
          rintro (h | h)
          · exact hk h
          · exact hmem (by simpa [keysOf] using h)
        rw [if_neg hmem']

/-- C1: the manifest merge driver produces exactly the union of the two
`files` maps, with entries of "other" overwriting entries of "current" on
every colliding path; in particular merging files maps a:1,b:2 (current)
with b:3,c:4 (other) yields a:1,b:3,c:4. -/
theorem merge_is_union :
    (∀ (current other : FilesMap) (key : String), (keysOf other).Nodup →
      lookup (cmd_custom_merge current other) key =
        (lookup other key).or (lookup current key)) ∧
    cmd_custom_merge [("a", "1"), ("b", "2")] [("b", "3"), ("c", "4")] =
      [("a", "1"), ("b", "3"), ("c", "4")] := by
  constructor
  · intro current other key hnd
    rw [cmd_custom_merge, RepoConfig.merge, lookup_update current other key hnd]
    rcases hs : lookup other key with _ | v
    · have hm : ¬ key ∈ keysOf other := by
        rw [← lookup_isSome_iff_mem_keys, hs]; simp
      rw [if_neg hm]
      rfl
    · have hm : key ∈ keysOf other := by
        rw [← lookup_isSome_iff_mem_keys, hs]; simp
      rw [if_pos hm]
      rfl
  · rfl

theorem merge_is_union_witness :
    (keysOf [("x", "9")]).Nodup ∧
      lookup (cmd_custom_merge [("x", "0")] [("x", "9")]) "x" =
        (lookup [("x", "9")] "x").or (lookup [("x", "0")] "x") :=
  ⟨by decide, merge_is_union.1 [("x", "0")] [("x", "9")] "x" (by decide)⟩

/-! ### Reachability scan (`App._find_reachable_objects`, main.py lines 673-686)

The scan runs `git rev-list --objects --all -- .gitbig`, keeps the object id
of every line whose second whitespace-separated token is `.gitbig`
(collected into a Python `set`, modelled as an insertion-ordered
duplicate-free list), then `git show`s each collected blob once, parses it
as a manifest and unions the digest values.  `GitHistory.showBlob` models
`git show` plus `json.loads`. -/

structure GitHistory where
  revListParts : List (List String)
  showBlob : String → FilesMap

/-- Insertion into a Python `set`, modelled as an ordered duplicate-free list. -/
def dedupInsert (acc : List String) (x : String) : List String :=
  if x ∈ acc then acc else acc ++ [x]

/-- One line of `git rev-list --objects` output: keep `parts[0]` when
`len(parts) > 1 and parts[1] == '.gitbig'`. -/
def revListStep (acc : List String) (parts : List String) : List String :=
  match parts with
  | p0 :: p1 :: _ => if p1 = ".gitbig" then dedupInsert acc p0 else acc
  | _ => acc

/-- The `objects` set of `_find_reachable_objects`: the distinct `.gitbig`
blob ids occurring in the rev-list output. -/
def collectObjects (lines : List (List String)) : List String :=
  lines.foldl revListStep []

/-- Union the digest values of one parsed manifest into the `reachable` set. -/
def addValues (acc : List String) (m : FilesMap) : List String :=
  (valuesOf m).foldl dedupInsert acc

/-- `App._find_reachable_objects`: parse each collected blob exactly once
(the fold runs over the duplicate-free `collectObjects` list) and union all
digest values. -/
def find_reachable_objects (h : GitHistory) : List String :=
  (collectObjects h.revListParts).foldl (fun acc obj => addValues acc (h.showBlob obj)) []

theorem mem_dedupInsert (acc : List String) (x y : String) :
    y ∈ dedupInsert acc x ↔ y ∈ acc ∨ y = x := by
  unfold dedupInsert
  by_cases h : x ∈ acc
  · rw [if_pos h]
    constructor
    · exact Or.inl
    · rintro (hy | hy)
      · exact hy
      · exact hy ▸ h
  · rw [if_neg h]
    simp [List.mem_append]

theorem nodup_dedupInsert (acc : List String) (x : String) (h : acc.Nodup) :
    (dedupInsert acc x).Nodup := by
  unfold dedupInsert
  by_cases hx : x ∈ acc
  · rwa [if_pos hx]
  · rw [if_neg hx]
    simp [List.nodup_append, h, hx]

theorem mem_revListStep (acc : List String) (parts : List String) (y : String) :
    y ∈ revListStep acc parts ↔
      y ∈ acc ∨ ∃ rest, parts = y :: ".gitbig" :: rest := by
  rcases parts with _ | ⟨p0, _ | ⟨p1, rest⟩⟩
  · simp [revListStep]
  · simp [revListStep]
  · show y ∈ (if p1 = ".gitbig" then dedupInsert acc p0 else acc) ↔ _
    by_cases h : p1 = ".gitbig"
    · subst h
      rw [if_pos rfl, mem_dedupInsert]
      constructor
      · rintro (hy | hy)
        · exact Or.inl hy
        · exact Or.inr ⟨rest, by rw [hy]⟩
      · rintro (hy | ⟨r, hr⟩)
        · exact Or.inl hy
        · obtain ⟨h0, _⟩ := List.cons.inj hr
          exact Or.inr h0.symm
    · rw [if_neg h]
      constructor
      · exact Or.inl
      · rintro (hy | ⟨r, hr⟩)
        · exact hy
        · obtain ⟨_, htl⟩ := List.cons.inj hr
          obtain ⟨h1, _⟩ := List.cons.inj htl
          exact absurd h1 h

theorem nodup_revListStep (acc : List String) (parts : List String) (h : acc.Nodup) :
    (revListStep acc parts).Nodup := by
  rcases parts with _ | ⟨p0, _ | ⟨p1, rest⟩⟩
  · exact h
  · exact h
  · show (if p1 = ".gitbig" then dedupInsert acc p0 else acc).Nodup
    by_cases hp : p1 = ".gitbig"
    · rw [if_pos hp]
      exact nodup_dedupInsert _ _ h
    · rwa [if_neg hp]

theorem mem_foldl_revListStep (lines : List (List String)) (acc : List String)
    (y : String) :
    y ∈ lines.foldl revListStep acc ↔
      y ∈ acc ∨ ∃ parts ∈ lines, ∃ rest, parts = y :: ".gitbig" :: rest := by
  induction lines generalizing acc with
  | nil => simp
  | cons l ls ih =>
    rw [List.foldl_cons, ih, mem_revListStep]
    constructor
    · rintro ((hy | hy) | ⟨parts, hp, hr⟩)
      · exact Or.inl hy
      · exact Or.inr ⟨l, List.mem_cons_self l ls, hy⟩
      · exact Or.inr ⟨parts, List.mem_cons_of_mem l hp, hr⟩
    · rintro (hy | ⟨parts, hp, hr⟩)
      · exact Or.inl (Or.inl hy)
      · rcases List.mem_cons.1 hp with hl | hl
        · exact Or.inl (Or.inr (hl ▸ hr))
        · exact Or.inr ⟨parts, hl, hr⟩

theorem nodup_foldl_revListStep (lines : List (List String)) (acc : List String)
    (h : acc.Nodup) : (lines.foldl revListStep acc).Nodup := by
  induction lines generalizing acc with
  | nil => exact h
  | cons l ls ih =>
    rw [List.foldl_cons]
    exact ih _ (nodup_revListStep _ _ h)

theorem mem_foldl_dedupInsert (l : List String) (acc : List String) (y : String) :
    y ∈ l.foldl dedupInsert acc ↔ y ∈ acc ∨ y ∈ l := by
  induction l generalizing acc with
  | nil => simp
  | cons x xs ih =>
    rw [List.foldl_cons, ih, mem_dedupInsert]
    constructor
    · rintro ((hy | hy) | hy)
      · exact Or.inl hy
      · exact Or.inr (hy ▸ List.mem_cons_self x xs)
      · exact Or.inr (List.mem_cons_of_mem x hy)
    · rintro (hy | hy)
      · exact Or.inl (Or.inl hy)
      · rcases List.mem_cons.1 hy with hl | hl
        · exact Or.inl (Or.inr hl)
        · exact Or.inr hl

theorem mem_addValues (acc : List String) (m : FilesMap) (y : String) :
    y ∈ addValues acc m ↔ y ∈ acc ∨ y ∈ valuesOf m :=
  mem_foldl_dedupInsert _ _ _

theorem mem_foldl_addValues (h : GitHistory) (objs : List String)
    (acc : List String) (y : String) :
    y ∈ objs.foldl (fun acc obj => addValues acc (h.showBlob obj)) acc ↔
      y ∈ acc ∨ ∃ obj ∈ objs, y ∈ valuesOf (h.showBlob obj) := by
  induction objs generalizing acc with
  | nil => simp
  | cons o os ih =>
    rw [List.foldl_cons, ih, mem_addValues]
    constructor
    · rintro ((hy | hy) | ⟨obj, ho, hv⟩)
      · exact Or.inl hy
      · exact Or.inr ⟨o, List.mem_cons_self o os, hy⟩
      · exact Or.inr ⟨obj, List.mem_cons_of_mem o ho, hv⟩
    · rintro (hy | ⟨obj, ho, hv⟩)
      · exact Or.inl (Or.inl hy)
      · rcases List.mem_cons.1 ho with hl | hl
        · exact Or.inl (Or.inr (hl ▸ hv))
        · exact Or.inr ⟨obj, hl, hv⟩

/-- C2: the reachability scan returns exactly the union of the digest sets
referenced by the distinct manifest blobs reachable through the rev-list
output (membership depends only on which blob ids occur, not on how many
lines/commits reference them), and the list of blobs it parses
(`collectObjects`, over which `find_reachable_objects` calls `showBlob`
once per element) is duplicate-free, so each distinct manifest blob is
parsed at most once. -/
theorem reachable_is_union :
    (∀ (h : GitHistory) (d : String),
      d ∈ find_reachable_objects h ↔
        ∃ obj, (∃ rest, (obj :: ".gitbig" :: rest) ∈ h.revListParts) ∧
          d ∈ valuesOf (h.showBlob obj)) ∧
    ∀ h : GitHistory, (collectObjects h.revListParts).Nodup := by
  constructor
  · intro h d
    rw [find_reachable_objects, mem_foldl_addValues]
    simp only [List.not_mem_nil, false_or]
    constructor
    · rintro ⟨obj, ho, hv⟩
      rw [collectObjects, mem_foldl_revListStep] at ho
      rcases ho with ho | ⟨parts, hp, rest, hr⟩
      · exact absurd ho (List.not_mem_nil obj)
      · exact ⟨obj, ⟨rest, hr ▸ hp⟩, hv⟩
    · rintro ⟨obj, ⟨rest, hr⟩, hv⟩
      refine ⟨obj, ?_, hv⟩
      rw [collectObjects, mem_foldl_revListStep]
      exact Or.inr ⟨obj :: ".gitbig" :: rest, hr, rest, rfl⟩
  · intro h
    exact nodup_foldl_revListStep _ _ List.nodup_nil

/-! ### Push / pull over an explicit state

`cmd_push` (main.py 575-579) and `cmd_pull` (581-638) are modelled as
functions of an immutable environment (`PullEnv`: depot configured or not,
the combined `config.files` manifest, the git history used by the final
reachability scan) and a mutable state (`FSState`: working tree, cache and
anchor presence sets, the depot presence index of `DepotIndex`, the set of
objects the remote storage holds, and extra hardlink targets).  Outcomes
distinguish normal return, `SystemExit(n)`, `click.ClickException`, and an
uncaught Python exception.  Side effects that the claims talk about
(echoed messages, depot transfers, `Depot.save_refs`) are recorded as an
event trace. -/

/-- A working-tree path entry: a regular file with some bytes, or a
symlink pointing at the anchor of a digest (`Entry.symlink_path`). -/
inductive WFile where
  | regular (content : String)
  | link (digest : String)
deriving DecidableEq

structure PullEnv where
  depotConfigured : Bool
  files : FilesMap
  history : GitHistory

structure FSState where
  working : List (String × WFile)
  cache : List String
  anchors : List String
  index : List String
  depotObjects : List String
  extraPaths : List String
deriving DecidableEq

inductive Event where
  | echo (msg : String)
  | getFile (digest : String)
  | putFile (digest : String)
  | saveRefs (refs : List String)
deriving DecidableEq

inductive Outcome where
  | ok
  | exitCode (n : Nat)
  | clickError (msg : String)
  | pyError (msg : String)
deriving DecidableEq

structure RunResult where
  outcome : Outcome
  state : FSState
  events : List Event
deriving DecidableEq

inductive StepResult where
  | cont (st : FSState) (ev : List Event)
  | abort (o : Outcome) (st : FSState) (ev : List Event)
deriving DecidableEq

def stepEvents : StepResult → List Event
  | .cont _ ev => ev
  | .abort _ _ ev => ev

/-- `entry.in_working` (`os.path.exists(entry.working_path)`, which follows
symlinks: a link resolves iff its anchor target exists). -/
def existsAt (st : FSState) (rel : String) : Bool :=
  match lookup st.working rel with
  | some (.regular _) => true
  | some (.link d) => d ∈ st.anchors
  | none => false

/-- `entry.is_link` (`fs.islink(entry.working_path)`). -/
def isLinkAt (st : FSState) (rel : String) : Bool :=
  match lookup st.working rel with
  | some (.link _) => true
  | _ => false

/-- `Depot.get` (main.py 416-436): `_entry` consults the presence index,
then probes the storage backend (caching a hit into the index); if the
object is nowhere, echo a message and return; otherwise download into the
cache and record the digest in the index. -/
def depotGet (st : FSState) (digest : String) : FSState × List Event :=
  let st :=
    if digest ∈ st.index then st
    else if digest ∈ st.depotObjects then { st with index := st.index ++ [digest] }
    else st
  if digest ∈ st.index ∨ digest ∈ st.depotObjects then
    ({ st with cache := dedupInsert st.cache digest }, [.getFile digest])
  else
    (st, [.echo ("Object missing from depot: " ++ digest)])

/-- The depot-fetch guard of the pull loop (main.py 597-598):
`if not entry.in_cache and self.depot and not soft: self.depot.get(entry)`. -/
def pullFetch (env : PullEnv) (soft : Bool) (st : FSState) (digest : String) :
    FSState × List Event :=
  if ¬ digest ∈ st.cache ∧ env.depotConfigured = true ∧ soft = false then
    depotGet st digest
  else (st, [])

def pathBasename (s : String) : String :=
  match (s.splitOn "/").getLast? with
  | some b => b
  | none => s

/-- The `--extra` hardlink block of the pull loop (main.py 619-633).
`os.link` raises if the destination already exists. -/
def pullExtra (extra : Option String) (multi : Bool) (st : FSState)
    (ev : List Event) (rel digest : String) : StepResult :=
  match extra with
  | none => .cont st ev
  | some x =>
    let extraPath := if multi then x ++ "/" ++ pathBasename rel else x
    let ev := ev ++ [.echo ("Linking: " ++ digest.take 8 ++ " -> " ++ extraPath)]
    if extraPath ∈ st.extraPaths then .abort (.pyError "FileExistsError") st ev
    else .cont { st with extraPaths := st.extraPaths ++ [extraPath] } ev

/-- The anchor hardlink creation of the pull loop (main.py 600-605):
`if not entry.in_anchors: makedirs; fs.link(cache_path, anchor_path)`. -/
def anchorsAdd (st : FSState) (digest : String) : FSState :=
  if ¬ digest ∈ st.anchors then { st with anchors := st.anchors ++ [digest] } else st

/-- The body of one pull-loop iteration after the optional depot fetch
(main.py 599-637), with `ev` the events already emitted by the fetch:
when the object is in the cache — anchor hardlink creation, working-tree
symlink creation (dirty regular files abort with `SystemExit(1)`;
`os.symlink` onto an occupied path raises), then the `--extra` hardlink;
when the object is still not cached, a warning is echoed and the loop
continues. -/
def pullMaterialize (extra : Option String) (multi : Bool)
    (st : FSState) (ev : List Event) (rel digest : String) : StepResult :=
  if digest ∈ st.cache then
    let st := anchorsAdd st digest
    if existsAt st rel = false then
      let ev := ev ++ [.echo ("Linking: " ++ digest.take 8 ++ " -> " ++ rel)]
      match lookup st.working rel with
      | none =>
        pullExtra extra multi
          { st with working := setItem st.working rel (.link digest) } ev rel digest
      | some _ => .abort (.pyError "FileExistsError") st ev
    else if isLinkAt st rel = false then
      .abort (.exitCode 1) st
        (ev ++ [.echo ("Pull aborted, dirty file detected: " ++ rel)])
    else
      pullExtra extra multi st ev rel digest
  else
    .cont st
      (ev ++ [.echo ("File " ++ rel ++
        " not available locally; use git big pull --hard to download it")])

/-- One iteration of the pull loop (main.py 595-637) for the entry
`(rel, digest)`: the optional depot fetch followed by materialization. -/
def pullStep (env : PullEnv) (soft : Bool) (extra : Option String) (multi : Bool)
    (st : FSState) (rel digest : String) : StepResult :=
  let fetched := pullFetch env soft st digest
  pullMaterialize extra multi fetched.1 fetched.2 rel digest

/-- `Depot.put` (main.py 438-443): `_entry` (index, then storage probe with
index caching), then upload only when the object is not already in the
depot; the upload reads `entry.cache_path` and raises `IOError` when the
cache object is missing. -/
def pushStep (st : FSState) (e : String × String) : StepResult :=
  let digest := e.2
  if digest ∈ st.index then .cont st []
  else if digest ∈ st.depotObjects then
    .cont { st with index := st.index ++ [digest] } []
  else if digest ∈ st.cache then
    .cont { st with depotObjects := st.depotObjects ++ [digest],
                    index := st.index ++ [digest] } [.putFile digest]
  else .abort (.pyError "IOError") st []

/-- Run a per-entry step over the entry list, accumulating state and
events; an abort (exception / `SystemExit`) stops the loop. -/
def runLoop (step : FSState → String × String → StepResult) :
    FSState → List Event → List (String × String) → RunResult
  | st, ev, [] => ⟨.ok, st, ev⟩
  | st, ev, e :: rest =>
    match step st e with
    | .cont st' ev' => runLoop step st' (ev ++ ev') rest
    | .abort o st' ev' => ⟨o, st', ev ++ ev'⟩

def insertSorted (x : String) : List String → List String
  | [] => [x]
  | y :: ys => if x ≤ y then x :: y :: ys else y :: insertSorted x ys

/-- Python `sorted` on the manifest keys. -/
def sortStrings (l : List String) : List String := l.foldr insertSorted []

/-- `App._entries` (main.py 762-767): iterate the sorted manifest keys and
yield an entry for each key that is selected by `paths` (all keys when
`paths` is empty). -/
def entriesOf (files : FilesMap) (paths : List String) : List (String × String) :=
  (sortStrings (keysOf files)).filterMap fun k =>
    if paths = [] ∨ k ∈ paths then (lookup files k).map (fun d => (k, d)) else none

/-- The final `self.depot.save_refs(self._find_reachable_objects())` call
shared by push (main.py 579) and pull (main.py 638): if the loop raised,
the exception propagates and nothing is saved; otherwise `self.depot` is
dereferenced — an `AttributeError` when no depot is configured (`self.depot
is None`), the liveness upload when one is. -/
def saveRefsFinish (env : PullEnv) (r : RunResult) : RunResult :=
  if r.outcome = .ok then
    if env.depotConfigured = true then
      ⟨.ok, r.state, r.events ++ [.saveRefs (find_reachable_objects env.history)]⟩
    else
      ⟨.pyError "AttributeError: NoneType object has no attribute save_refs",
        r.state, r.events⟩
  else r

/-- `App.cmd_pull` (main.py 581-638). -/
def cmd_pull (env : PullEnv) (st : FSState) (paths : List String) (soft : Bool)
    (extra : Option String) : RunResult :=
  let soft := if paths = [] then soft else false
  if soft = false ∧ env.depotConfigured = false then
    ⟨.clickError "A depot must be configured before pulling; run git big set-depot",
      st, []⟩
  else
    let entries := entriesOf env.files paths
    if ¬ paths = [] ∧ entries = [] then
      ⟨.exitCode 1, st, [.echo "Nothing to pull."]⟩
    else
      let multi := decide (entries.length > 1)
      let st := if paths = [] then { st with anchors := [] } else st
      saveRefsFinish env
        (runLoop (fun s e => pullStep env soft extra multi s e.1 e.2) st [] entries)

/-- `App.cmd_push` (main.py 575-579). -/
def cmd_push (env : PullEnv) (st : FSState) : RunResult :=
  if env.depotConfigured = false then
    ⟨.clickError "A depot must be configured before pushing; run git big set-depot",
      st, []⟩
  else
    saveRefsFinish env (runLoop pushStep st [] (entriesOf env.files []))

/-! ### Helper lemmas about the pull/push embedding -/

theorem depotGet_working (st : FSState) (digest : String) :
    (depotGet st digest).1.working = st.working := by
  simp only [depotGet]
  split <;> split <;> (try split) <;> rfl

theorem pullFetch_working (env : PullEnv) (soft : Bool) (st : FSState)
    (digest : String) : (pullFetch env soft st digest).1.working = st.working := by
  simp only [pullFetch]
  split
  · exact depotGet_working st digest
  · rfl

theorem depotGet_events_of_available (st : FSState) (digest : String)
    (h : digest ∈ st.index ∨ digest ∈ st.depotObjects) :
    (depotGet st digest).2 = [.getFile digest] := by
  simp only [depotGet]
  by_cases hi : digest ∈ st.index
  · rw [if_pos hi, if_pos (Or.inl hi)]
  · rw [if_neg hi]
    have ho : digest ∈ st.depotObjects := h.resolve_left hi
    rw [if_pos ho, if_pos (Or.inr ho)]

theorem depotGet_cache_of_available (st : FSState) (digest : String)
    (h : digest ∈ st.index ∨ digest ∈ st.depotObjects) :
    digest ∈ (depotGet st digest).1.cache := by
  simp only [depotGet]
  by_cases hi : digest ∈ st.index
  · rw [if_pos hi, if_pos (Or.inl hi)]
    simp [mem_dedupInsert]
  · rw [if_neg hi]
    have ho : digest ∈ st.depotObjects := h.resolve_left hi
    rw [if_pos ho, if_pos (Or.inr ho)]
    simp [mem_dedupInsert]

theorem anchorsAdd_working (st : FSState) (digest : String) :
    (anchorsAdd st digest).working = st.working := by
  simp only [anchorsAdd]
  split <;> rfl

theorem pullExtra_events (extra : Option String) (multi : Bool) (st : FSState)
    (ev : List Event) (rel digest : String) :
    ∃ tl, stepEvents (pullExtra extra multi st ev rel digest) = ev ++ tl := by
  rcases extra with _ | x
  · exact ⟨[], by simp [pullExtra, stepEvents]⟩
  · simp only [pullExtra]
    by_cases h : (if multi then x ++ "/" ++ pathBasename rel else x) ∈ st.extraPaths
    · rw [if_pos h]
      exact ⟨_, rfl⟩
    · rw [if_neg h]
      exact ⟨_, rfl⟩

theorem pullMaterialize_events_prefix (extra : Option String) (multi : Bool)
    (st : FSState) (ev : List Event) (rel digest : String) :
    ∃ tl, stepEvents (pullMaterialize extra multi st ev rel digest) = ev ++ tl := by
  simp only [pullMaterialize]
  by_cases c1 : digest ∈ st.cache
  · rw [if_pos c1]
    by_cases c2 : existsAt (anchorsAdd st digest) rel = false
    · rw [if_pos c2]
      rcases hw : lookup (anchorsAdd st digest).working rel with _ | w
      · simp only [hw]
        obtain ⟨tl, htl⟩ := pullExtra_events extra multi
          { anchorsAdd st digest with
              working := setItem (anchorsAdd st digest).working rel (.link digest) }
          (ev ++ [.echo ("Linking: " ++ digest.take 8 ++ " -> " ++ rel)]) rel digest
        exact ⟨_, by rw [htl, List.append_assoc]⟩
      · simp only [hw]
        exact ⟨_, rfl⟩
    · rw [if_neg c2]
      by_cases c3 : isLinkAt (anchorsAdd st digest) rel = false
      · rw [if_pos c3]
        exact ⟨_, rfl⟩
      · rw [if_neg c3]
        exact pullExtra_events extra multi _ ev rel digest
  · rw [if_neg c1]
    exact ⟨_, rfl⟩

theorem stepEvents_pullStep_prefix (env : PullEnv) (soft : Bool)
    (extra : Option String) (multi : Bool) (st : FSState) (rel digest : String) :
    ∃ tl, stepEvents (pullStep env soft extra multi st rel digest) =
      (pullFetch env soft st digest).2 ++ tl :=
  pullMaterialize_events_prefix extra multi _ _ rel digest

theorem mem_insertSorted (x y : String) (l : List String) :
    y ∈ insertSorted x l ↔ y = x ∨ y ∈ l := by
  induction l with
  | nil => simp [insertSorted]
  | cons z zs ih =>
    simp only [insertSorted]
    by_cases h : x ≤ z
    · rw [if_pos h]
      simp [List.mem_cons]
    · rw [if_neg h]
      simp only [List.mem_cons, ih]
      tauto

theorem mem_sortStrings (l : List String) (y : String) :
    y ∈ sortStrings l ↔ y ∈ l := by
  induction l with
  | nil => simp [sortStrings]
  | cons x xs ih =>
    simp only [sortStrings, List.foldr_cons] at *
    rw [mem_insertSorted, ih, List.mem_cons]

theorem entriesOf_eq_nil (files : FilesMap) (paths : List String)
    (hp : ¬ paths = []) (hk : ∀ kv ∈ files, ¬ kv.1 ∈ paths) :
    entriesOf files paths = [] := by
  rw [entriesOf]
  rw [List.filterMap_eq_nil_iff]
  intro k hkmem
  have hkf : k ∈ keysOf files := (mem_sortStrings _ _).1 hkmem
  obtain ⟨kv, hkv, hfst⟩ := List.mem_map.1 hkf
  have hknot : ¬ k ∈ paths := hfst ▸ hk kv hkv
  rw [if_neg]
  rintro (h | h)
  · exact hp h
  · exact hknot h

theorem existsAt_of_regular (st : FSState) (rel content : String)
    (h : lookup st.working rel = some (.regular content)) :
    existsAt st rel = true := by
  simp [existsAt, h]

theorem isLinkAt_of_regular (st : FSState) (rel content : String)
    (h : lookup st.working rel = some (.regular content)) :
    isLinkAt st rel = false := by
  simp [isLinkAt, h]

/-! ### Concrete sample environments and states used by closed runs -/

def trivialHistory : GitHistory := ⟨[], fun _ => []⟩

def emptyState : FSState := ⟨[], [], [], [], [], []⟩

/-- No depot configured, one manifest entry. -/
def noDepotEnv : PullEnv := ⟨false, [("a", "d1")], trivialHistory⟩

/-- Depot configured, empty manifest. -/
def depotEnvEmpty : PullEnv := ⟨true, [], trivialHistory⟩

/-- Depot configured, one manifest entry whose object exists nowhere. -/
def hardPullEnv : PullEnv := ⟨true, [("f", "d")], trivialHistory⟩

/-- Depot configured, manifest maps path a to digest d1. -/
def pullPathsEnv : PullEnv := ⟨true, [("a", "d1")], trivialHistory⟩

/-- Cache already holds digest d1. -/
def cachedState : FSState := { emptyState with cache := ["d1"] }

/-- No depot, manifest maps a to d1. -/
def dirtyEnv : PullEnv := ⟨false, [("a", "d1")], trivialHistory⟩

/-- Path a is occupied by an unrelated regular file while d1 is cached. -/
def dirtyState : FSState :=
  { emptyState with working := [("a", .regular "precious")], cache := ["d1"] }

/-- C3 counterexample: with no depot configured, `push` aborts with the
depot-configuration error before any reachability scan (its event trace is
empty, so nothing is persisted), and a soft `pull` crashes with an
AttributeError on `None.save_refs` instead of persisting the liveness
blob; the claim says both always complete by persisting the reachable set
regardless of whether a depot is configured. -/
theorem push_no_depot_no_persist :
    (cmd_push noDepotEnv emptyState).events = [] ∧
    (cmd_push noDepotEnv emptyState).outcome =
      .clickError "A depot must be configured before pushing; run git big set-depot" ∧
    (cmd_pull noDepotEnv emptyState [] true none).outcome =
      .pyError "AttributeError: NoneType object has no attribute save_refs" ∧
    (cmd_pull noDepotEnv emptyState [] true none).events =
      [.echo "File a not available locally; use git big pull --hard to download it"] := by
  refine ⟨rfl, rfl, rfl, rfl⟩

/-- C3 (amended): every `push` and every `pull` invocation that completes
normally does so with a depot configured and finishes by recomputing the
reachable digest set and persisting it via `Depot.save_refs` (the last
recorded event); without a depot, push and hard pull abort with a
configuration error and soft pull crashes before persisting. -/
theorem push_pull_persist_reachable :
    (∀ (env : PullEnv) (st : FSState), (cmd_push env st).outcome = .ok →
      env.depotConfigured = true ∧
        (cmd_push env st).events.getLast? =
          some (.saveRefs (find_reachable_objects env.history))) ∧
    (∀ (env : PullEnv) (st : FSState) (paths : List String) (soft : Bool)
        (extra : Option String),
      (cmd_pull env st paths soft extra).outcome = .ok →
      env.depotConfigured = true ∧
        (cmd_pull env st paths soft extra).events.getLast? =
          some (.saveRefs (find_reachable_objects env.history))) := by
  have hfin : ∀ (env : PullEnv) (r : RunResult),
      (saveRefsFinish env r).outcome = .ok →
      env.depotConfigured = true ∧
        (saveRefsFinish env r).events.getLast? =
          some (.saveRefs (find_reachable_objects env.history)) := by
    intro env r h
    simp only [saveRefsFinish] at h ⊢
    by_cases h1 : r.outcome = .ok
    · rw [if_pos h1] at h ⊢
      by_cases h2 : env.depotConfigured = true
      · rw [if_pos h2] at h ⊢
        exact ⟨h2, by simp [List.getLast?_concat]⟩
      · rw [if_neg h2] at h
        exact absurd h (by simp)
    · rw [if_neg h1] at h
      exact absurd h h1
  constructor
  · intro env st h
    by_cases hd : env.depotConfigured = false
    · simp only [cmd_push, if_pos hd] at h
      exact absurd h (by simp)
    · simp only [cmd_push, if_neg hd] at h ⊢
      exact hfin env _ h
  · intro env st paths soft extra h
    simp only [cmd_pull] at h ⊢
    by_cases c1 : (if paths = [] then soft else false) = false ∧
        env.depotConfigured = false
    · rw [if_pos c1] at h
      exact absurd h (by simp)
    · rw [if_neg c1] at h ⊢
      by_cases c2 : ¬ paths = [] ∧ entriesOf env.files paths = []
      · rw [if_pos c2] at h
        exact absurd h (by simp)
      · rw [if_neg c2] at h ⊢
        exact hfin env _ h

theorem push_pull_persist_reachable_witness :
    (cmd_push depotEnvEmpty emptyState).outcome = .ok ∧
    (depotEnvEmpty.depotConfigured = true ∧
      (cmd_push depotEnvEmpty emptyState).events.getLast? =
        some (.saveRefs (find_reachable_objects depotEnvEmpty.history))) :=
  ⟨by decide, push_pull_persist_reachable.1 depotEnvEmpty emptyState (by decide)⟩

/-- C6 counterexample: a hard full pull whose single manifest entry is
absent from the working tree, the cache, the depot index and the depot
storage completes with outcome ok (exit code 0): the absence only produces
two echoed warnings and the pull then persists the reachable set, so it is
not a fatal per-file error as the claim states. -/
theorem hard_pull_missing_not_fatal :
    (cmd_pull hardPullEnv emptyState [] false none).outcome = .ok ∧
    (cmd_pull hardPullEnv emptyState [] false none).events =
      [.echo "Object missing from depot: d",
       .echo "File f not available locally; use git big pull --hard to download it",
       .saveRefs (find_reachable_objects hardPullEnv.history)] := by
  refine ⟨rfl, rfl⟩

/-- C6 (amended): on a hard pull, a manifest-listed path whose digest is
absent from the cache, the depot index and the depot storage is handled by
echoing Object missing from depot and File not available locally, and the
loop continues with the state unchanged: the absence is a soft warning,
not a fatal per-file error. -/
theorem hard_pull_missing_object_warns (env : PullEnv) (st : FSState)
    (rel digest : String) (extra : Option String) (multi : Bool)
    (hw : lookup st.working rel = none)
    (hc : ¬ digest ∈ st.cache) (hi : ¬ digest ∈ st.index)
    (ho : ¬ digest ∈ st.depotObjects) (hd : env.depotConfigured = true) :
    pullStep env false extra multi st rel digest =
      .cont st [.echo ("Object missing from depot: " ++ digest),
        .echo ("File " ++ rel ++
          " not available locally; use git big pull --hard to download it")] := by
  have hfetch : pullFetch env false st digest =
      (st, [.echo ("Object missing from depot: " ++ digest)]) := by
    simp only [pullFetch, depotGet]
    rw [if_pos ⟨hc, hd, by simp⟩, if_neg hi, if_neg ho,
      if_neg (by rintro (h | h); exacts [hi h, ho h])]
  simp only [pullStep]
  rw [hfetch]
  show pullMaterialize extra multi st
    [.echo ("Object missing from depot: " ++ digest)] rel digest = _
  simp only [pullMaterialize]
  rw [if_neg hc]
  rfl

theorem hard_pull_missing_object_warns_witness :
    lookup emptyState.working "f" = none ∧
    ¬ "d" ∈ emptyState.cache ∧
    ¬ "d" ∈ emptyState.index ∧
    ¬ "d" ∈ emptyState.depotObjects ∧
    hardPullEnv.depotConfigured = true ∧
    pullStep hardPullEnv false none false emptyState "f" "d" =
      .cont emptyState [.echo "Object missing from depot: d",
        .echo "File f not available locally; use git big pull --hard to download it"] :=
  ⟨by decide, by decide, by decide, by decide, by decide,
    hard_pull_missing_object_warns hardPullEnv emptyState "f" "d" none false
      (by decide) (by decide) (by decide) (by decide) (by decide)⟩

/-- C7 counterexample: a pull that names the manifest path a together with
a path missing that is not in the manifest completes with outcome ok: the
unknown path is silently ignored because the Nothing to pull check only
fires when no named path matches the manifest, so the invocation is not a
fatal usage error. -/
theorem pull_mixed_paths_ignores_missing :
    (cmd_pull pullPathsEnv cachedState ["a", "missing"] true none).outcome = .ok := by
  rfl

/-- C7 (amended): a pull invocation that names at least one path, none of
which is in the manifest, is fatal: with a depot configured it echoes
Nothing to pull and raises SystemExit(1); without one it aborts with the
depot-configuration error (also a non-zero exit).  When some other named
path is in the manifest, named paths absent from the manifest are silently
ignored. -/
theorem pull_unknown_paths_fatal (env : PullEnv) (st : FSState)
    (paths : List String) (soft : Bool) (extra : Option String)
    (hp : ¬ paths = [])
    (hk : ∀ kv ∈ env.files, ¬ kv.1 ∈ paths) :
    (cmd_pull env st paths soft extra).outcome =
      if env.depotConfigured = true then .exitCode 1
      else .clickError "A depot must be configured before pulling; run git big set-depot" := by
  have hentries : entriesOf env.files paths = [] := entriesOf_eq_nil env.files paths hp hk
  cases hdc : env.depotConfigured with
  | false => simp [cmd_pull, hp, hentries, hdc]
  | true => simp [cmd_pull, hp, hentries, hdc]

theorem pull_unknown_paths_fatal_witness :
    ¬ (["missing"] : List String) = [] ∧
    (∀ kv ∈ pullPathsEnv.files, ¬ kv.1 ∈ (["missing"] : List String)) ∧
    (cmd_pull pullPathsEnv cachedState ["missing"] true none).outcome =
      (if pullPathsEnv.depotConfigured = true then Outcome.exitCode 1
       else .clickError "A depot must be configured before pulling; run git big set-depot") :=
  ⟨by decide, by decide,
    pull_unknown_paths_fatal pullPathsEnv cachedState ["missing"] true none
      (by decide) (by decide)⟩

/-- C8: a pull that materializes a manifest-listed entry (its object is in
the cache after the optional depot fetch) whose working path holds an
unrelated regular file aborts with `SystemExit(1)` after echoing the dirty
warning, leaving that file's bytes unchanged; and a concrete full pull over
a dirty working tree exits 1 with the file intact. -/
theorem pull_dirty_file_aborts :
    (∀ (env : PullEnv) (soft : Bool) (extra : Option String) (multi : Bool)
        (st : FSState) (rel digest content : String),
      lookup st.working rel = some (.regular content) →
      digest ∈ (pullFetch env soft st digest).1.cache →
      ∃ st' ev, pullStep env soft extra multi st rel digest =
          .abort (.exitCode 1) st' ev ∧
        lookup st'.working rel = some (.regular content)) ∧
    ((cmd_pull dirtyEnv dirtyState [] true none).outcome = .exitCode 1 ∧
      lookup (cmd_pull dirtyEnv dirtyState [] true none).state.working "a" =
        some (.regular "precious")) := by
  constructor
  · intro env soft extra multi st rel digest content hw hc
    have hw1 : lookup (pullFetch env soft st digest).1.working rel =
        some (.regular content) := by
      rw [pullFetch_working]; exact hw
    have hw2 : lookup (anchorsAdd (pullFetch env soft st digest).1 digest).working rel =
        some (.regular content) := by
      rw [anchorsAdd_working]; exact hw1
    refine ⟨anchorsAdd (pullFetch env soft st digest).1 digest,
      (pullFetch env soft st digest).2 ++
        [.echo ("Pull aborted, dirty file detected: " ++ rel)], ?_, hw2⟩
    simp only [pullStep, pullMaterialize]
    rw [if_pos hc,
      if_neg (by rw [existsAt_of_regular _ _ _ hw2]; exact fun h => Bool.noConfusion h),
      if_pos (isLinkAt_of_regular _ _ _ hw2)]
  · exact ⟨rfl, rfl⟩

theorem pull_dirty_file_aborts_witness :
    lookup dirtyState.working "a" = some (.regular "precious") ∧
    "d1" ∈ (pullFetch dirtyEnv true dirtyState "d1").1.cache ∧
    ∃ st' ev, pullStep dirtyEnv true none false dirtyState "a" "d1" =
        .abort (.exitCode 1) st' ev ∧
      lookup st'.working "a" = some (.regular "precious") :=
  ⟨by decide, by decide,
    pull_dirty_file_aborts.1 dirtyEnv true none false dirtyState "a" "d1" "precious"
      (by decide) (by decide)⟩

/-- C10: naming at least one explicit path forces the pull into hard mode:
the invocation behaves exactly as if the caller had passed soft = false, so
a depot must be configured (otherwise the invocation aborts with the
configuration error even though the caller asked for a soft pull), and an
entry whose object is missing from the cache but present in the depot is
fetched from the depot (the step's first event is the depot download). -/
theorem pull_paths_force_hard :
    (∀ (env : PullEnv) (st : FSState) (paths : List String) (soft : Bool)
        (extra : Option String), ¬ paths = [] →
      cmd_pull env st paths soft extra = cmd_pull env st paths false extra) ∧
    (∀ (env : PullEnv) (st : FSState) (paths : List String) (soft : Bool)
        (extra : Option String), ¬ paths = [] → env.depotConfigured = false →
      cmd_pull env st paths soft extra =
        ⟨.clickError "A depot must be configured before pulling; run git big set-depot",
          st, []⟩) ∧
    (∀ (env : PullEnv) (st : FSState) (rel digest : String)
        (extra : Option String) (multi : Bool),
      ¬ digest ∈ st.cache → env.depotConfigured = true →
      (digest ∈ st.index ∨ digest ∈ st.depotObjects) →
      (stepEvents (pullStep env false extra multi st rel digest)).head? =
        some (.getFile digest)) := by
  refine ⟨?_, ?_, ?_⟩
  · intro env st paths soft extra hp
    simp only [cmd_pull]
    rw [if_neg hp, if_neg hp, if_neg hp]
  · intro env st paths soft extra hp hd
    simp only [cmd_pull]
    rw [if_neg hp, if_pos ⟨rfl, hd⟩]
  · intro env st rel digest extra multi hc hd hav
    have hfetch : pullFetch env false st digest = depotGet st digest := by
      rw [pullFetch, if_pos ⟨hc, hd, by simp⟩]
    obtain ⟨tl, htl⟩ := pullMaterialize_events_prefix extra multi
      (pullFetch env false st digest).1 (pullFetch env false st digest).2 rel digest
    have hev : (pullFetch env false st digest).2 = [.getFile digest] := by
      rw [hfetch]
      exact depotGet_events_of_available st digest hav
    rw [pullStep, htl, hev]
    rfl

theorem pull_paths_force_hard_witness :
    ¬ (["a"] : List String) = [] ∧
    cmd_pull pullPathsEnv cachedState ["a"] true none =
      cmd_pull pullPathsEnv cachedState ["a"] false none :=
  ⟨by decide,
    pull_paths_force_hard.1 pullPathsEnv cachedState ["a"] true none (by decide)⟩

/-! ### Unlock (`App._unlock_file`, main.py 835-848)

`cmd_unlock` (main.py 559-563) walks the given paths and calls
`_unlock_file` on each file path.  `_unlock_file` returns immediately when
the path is not a symlink or has no (truthy) manifest digest; otherwise it
unlinks the symlink, removes the path from the git index, copies the cache
object's bytes to the working path (`_copy_via_chunk` opens
`entry.cache_path` for reading and raises `IOError` when it is missing;
the copy is written through `atomic_open`, i.e. a fresh owner-writable
temporary file renamed into place), adds write permission (`unlock_file`),
and deletes the manifest entry. -/

inductive UFile where
  | regular (content : String) (writable : Bool)
  | link (target : String)
deriving DecidableEq

structure UnlockState where
  working : List (String × UFile)
  files : FilesMap
  cacheObjects : List (String × String)
  gitIndex : List String
deriving DecidableEq

inductive UnlockResult where
  | ok (st : UnlockState)
  | ioError (st : UnlockState)
deriving DecidableEq

def unlockFile (st : UnlockState) (path : String) : UnlockResult :=
  match lookup st.working path with
  | some (.link _) =>
    match lookup st.files path with
    | none => .ok st
    | some digest =>
      if digest = "" then .ok st
      else
        let st := { st with working := removeKey st.working path }
        let st := { st with gitIndex := st.gitIndex.erase path }
        match lookup st.cacheObjects digest with
        | none => .ioError st
        | some bytes =>
          let st := { st with working := setItem st.working path (.regular bytes true) }
          .ok { st with files := removeKey st.files path }
  | _ => .ok st

def cmd_unlock (st : UnlockState) : List String → UnlockResult
  | [] => .ok st
  | p :: ps =>
    match unlockFile st p with
    | .ok st' => cmd_unlock st' ps
    | .ioError st' => .ioError st'

theorem lookup_removeKey_self {α : Type} (m : List (String × α)) (key : String)
    (hnd : (keysOf m).Nodup) : lookup (removeKey m key) key = none := by
  induction m with
  | nil => rfl
  | cons head tail ih =>
    obtain ⟨k0, v0⟩ := head
    simp only [keysOf, List.map_cons, List.nodup_cons] at hnd
    simp only [removeKey]
    by_cases h : k0 = key
    · rw [if_pos h]
      subst h
      rcases hs : lookup tail k0 with _ | v
      · rfl
      · exact absurd ((lookup_isSome_iff_mem_keys tail k0).1 (by rw [hs]; rfl)) hnd.1
    · rw [if_neg h]
      simp only [lookup]
      rw [if_neg h]
      exact ih hnd.2

/-- C9 counterexample: unlocking a path that is a symlink and is in the
manifest, but whose digest has no cache object (e.g. a fresh clone where
the symlink came from version control and the cache is empty), crashes
with an IOError after deleting the symlink: no regular-file copy is
written and the manifest entry is not removed, contrary to the claim. -/
theorem unlock_missing_cache_crashes :
    unlockFile ⟨[("a", .link "t")], [("a", "d1")], [], ["a"]⟩ "a" =
      .ioError ⟨[], [("a", "d1")], [], []⟩ := by
  rfl

/-- C9 (amended): for a path that is currently a symlink, present in the
manifest with a non-empty digest, and whose digest's object is present in
the cache, unlock deletes the symlink, writes a writable regular-file copy
of the cache object's bytes at the working path, and removes the path's
entry from the manifest; for a path that is not a symlink, or not in the
manifest, unlock returns the state unchanged. -/
theorem unlock_behavior :
    (∀ (st : UnlockState) (path digest bytes : String),
      (∃ t, lookup st.working path = some (.link t)) →
      lookup st.files path = some digest →
      ¬ digest = "" →
      lookup st.cacheObjects digest = some bytes →
      (keysOf st.files).Nodup →
      ∃ st', unlockFile st path = .ok st' ∧
        lookup st'.working path = some (.regular bytes true) ∧
        lookup st'.files path = none) ∧
    (∀ (st : UnlockState) (path : String),
      (∀ t, ¬ lookup st.working path = some (.link t)) →
      unlockFile st path = .ok st) ∧
    (∀ (st : UnlockState) (path t : String),
      lookup st.working path = some (.link t) →
      lookup st.files path = none →
      unlockFile st path = .ok st) := by
  refine ⟨?_, ?_, ?_⟩
  · rintro st path digest bytes ⟨t, hw⟩ hf hne hc hnd
    refine ⟨{ working := setItem (removeKey st.working path) path (.regular bytes true),
              files := removeKey st.files path,
              cacheObjects := st.cacheObjects,
              gitIndex := st.gitIndex.erase path }, ?_, ?_, ?_⟩
    · simp only [unlockFile, hw, hf]
      rw [if_neg hne]
      simp only [hc]
    · show lookup (setItem (removeKey st.working path) path (.regular bytes true))
        path = some (.regular bytes true)
      rw [lookup_setItem, if_pos rfl]
    · exact lookup_removeKey_self st.files path hnd
  · intro st path hw
    rcases hl : lookup st.working path with _ | w
    · simp [unlockFile, hl]
    · rcases w with ⟨c, wr⟩ | t
      · simp [unlockFile, hl]
      · exact absurd hl (hw t)
  · intro st path t hw hf
    simp [unlockFile, hw, hf]

theorem unlock_behavior_witness :
    (∃ t, lookup (⟨[("a", UFile.link "t")], [("a", "d1")], [("d1", "bytes")], ["a"]⟩ :
        UnlockState).working "a" = some (.link t)) ∧
    ∃ st', unlockFile ⟨[("a", UFile.link "t")], [("a", "d1")], [("d1", "bytes")], ["a"]⟩
        "a" = .ok st' ∧
      lookup st'.working "a" = some (.regular "bytes" true) ∧
      lookup st'.files "a" = none :=
  ⟨⟨"t", by decide⟩,
    unlock_behavior.1 ⟨[("a", UFile.link "t")], [("a", "d1")], [("d1", "bytes")], ["a"]⟩
      "a" "d1" "bytes" ⟨"t", by decide⟩ (by decide) (by decide) (by decide) (by decide)⟩

/-! ### Filter protocol server (git_big/filter.py)

The pkt-line framing is handled by `read_lines`/`write_line`/`write_flush`;
the embedding works at the level of decoded lines.  `Pkt.line` is a
`write_line` (payload plus newline), `Pkt.raw` a bare `write_packet`,
`Pkt.flush` a `write_flush`. -/

inductive Pkt where
  | line (s : String)
  | raw (s : String)
  | flush
deriving DecidableEq

/-- Split a character list at the first `=` (Python `split('=', 1)`):
`none` when no `=` occurs. -/
def splitCharsOnEq : List Char → Option (List Char × List Char)
  | [] => none
  | c :: cs =>
    if c = '=' then some ([], cs)
    else
      match splitCharsOnEq cs with
      | none => none
      | some (k, v) => some (c :: k, v)

/-- Python `line.split('=', 1)` followed by the tuple unpacking
`key, value = ...`: `none` models the `ValueError` raised when the line
contains no `=`. -/
def splitKV (line : String) : Option (String × String) :=
  match splitCharsOnEq line.toList with
  | none => none
  | some (k, v) => some (⟨k⟩, ⟨v⟩)

/-- The version-collection loop of the handshake (filter.py 90-94):
`none` when some line raises `ValueError` in `key, value = line.split('=', 1)`. -/
def collectVersions : List String → Option (List String)
  | [] => some []
  | l :: ls =>
    match splitKV l with
    | none => none
    | some (k, v) =>
      match collectVersions ls with
      | none => none
      | some vs => some (if k = "version" then v :: vs else vs)

inductive HSStatus where
  | stopped
  | proceeded
  | crashed
deriving DecidableEq

/-- The handshake of `cmd_process` (filter.py 84-104): packets written and
whether the server stopped after `status=error`, proceeded to capability
negotiation, or crashed with an uncaught exception (`IndexError` on an
empty line list, `ValueError` on a line without `=`). -/
def handshake (lines : List String) : List Pkt × HSStatus :=
  match lines with
  | [] => ([], .crashed)
  | first :: rest =>
    if ¬ first = "git-filter-client" then
      ([.line "status=error", .flush], .stopped)
    else
      match collectVersions rest with
      | none => ([], .crashed)
      | some versions =>
        if "2" ∈ versions then
          ([.line "git-filter-server", .line "version=2", .flush], .proceeded)
        else
          ([.line "status=error", .flush], .stopped)

/-- Spec-side predicate: a `version=2` key-value pair is present. -/
def hasVersion2 (rest : List String) : Bool :=
  rest.any fun l => decide (splitKV l = some ("version", "2"))

theorem collectVersions_wellformed (rest : List String)
    (h : ∀ l ∈ rest, (splitKV l).isSome = true) :
    ∃ vs, collectVersions rest = some vs ∧
      ("2" ∈ vs ↔ hasVersion2 rest = true) := by
  induction rest with
  | nil => exact ⟨[], rfl, by simp [hasVersion2]⟩
  | cons l ls ih =>
    have hl : (splitKV l).isSome = true := h l (List.mem_cons_self l ls)
    rcases hkv : splitKV l with _ | ⟨k, v⟩
    · rw [hkv] at hl
      exact absurd hl (by simp)
    · obtain ⟨vs, hvs, hiff⟩ := ih fun x hx => h x (List.mem_cons_of_mem l hx)
      refine ⟨if k = "version" then v :: vs else vs, ?_, ?_⟩
      · simp only [collectVersions, hkv, hvs]
      · by_cases hk : k = "version"
        · rw [if_pos hk]
          subst hk
          have hv2 : hasVersion2 (l :: ls) = true ↔
              (v = "2" ∨ hasVersion2 ls = true) := by
            simp [hasVersion2, List.any_cons, hkv]
          rw [List.mem_cons, hv2]
          constructor
          · rintro (h2 | h2)
            · exact Or.inl h2.symm
            · exact Or.inr (hiff.1 h2)
          · rintro (h2 | h2)
            · exact Or.inl h2.symm
            · exact Or.inr (hiff.2 h2)
        · rw [if_neg hk]
          have hfalse : ¬ splitKV l = some ("version", "2") := by
            rw [hkv]
            intro hcontra
            injection hcontra with h1
            exact hk (congrArg Prod.fst h1)
          rw [hiff]
          simp [hasVersion2, List.any_cons, hfalse]

/-- C5 counterexample: for the handshake input whose first line is the
correct client identifier and whose second line oops has no equals sign,
no version=2 pair is present, so the claim requires a status=error reply;
the server instead crashes with a ValueError in the key-value unpacking
before writing anything. -/
theorem handshake_malformed_line_crashes :
    hasVersion2 ["oops"] = false ∧
    handshake ["git-filter-client", "oops"] = ([], .crashed) := by
  exact ⟨by decide, by decide⟩

/-- C5 (amended): for every handshake input with at least one line and in
which every line after the first contains an equals sign, the server
replies status=error plus flush and stops iff the first line differs from
git-filter-client or no version=2 pair is present, and otherwise replies
with its identifier, version=2 and a flush and proceeds.  (An input whose
tail contains a line without an equals sign crashes with ValueError before
any reply, and the empty input crashes with IndexError.) -/
theorem handshake_wellformed_iff (first : String) (rest : List String)
    (h : ∀ l ∈ rest, (splitKV l).isSome = true) :
    (handshake (first :: rest) = ([.line "status=error", .flush], .stopped) ↔
      (¬ first = "git-filter-client" ∨ hasVersion2 rest = false)) ∧
    (handshake (first :: rest) =
        ([.line "git-filter-server", .line "version=2", .flush], .proceeded) ↔
      (first = "git-filter-client" ∧ hasVersion2 rest = true)) := by
  obtain ⟨vs, hvs, hiff⟩ := collectVersions_wellformed rest h
  by_cases hf : first = "git-filter-client"
  · simp only [handshake, hvs]
    rw [if_neg (not_not_intro hf)]
    by_cases h2 : "2" ∈ vs
    · rw [if_pos h2]
      have hv : hasVersion2 rest = true := hiff.1 h2
      constructor
      · apply iff_of_false
        · intro hcontra
          exact absurd (congrArg Prod.snd hcontra) (by simp)
        · rintro (hcontra | hcontra)
          · exact hcontra hf
          · rw [hv] at hcontra
            exact Bool.noConfusion hcontra
      · exact iff_of_true rfl ⟨hf, hv⟩
    · rw [if_neg h2]
      have hv : hasVersion2 rest = false := by
        cases hb : hasVersion2 rest
        · rfl
        · exact absurd (hiff.2 hb) h2
      constructor
      · exact iff_of_true rfl (Or.inr hv)
      · apply iff_of_false
        · intro hcontra
          exact absurd (congrArg Prod.snd hcontra) (by simp)
        · rintro ⟨-, hcontra⟩
          rw [hv] at hcontra
          exact Bool.noConfusion hcontra
  · simp only [handshake]
    rw [if_pos hf]
    constructor
    · exact iff_of_true rfl (Or.inl hf)
    · apply iff_of_false
      · intro hcontra
        exact absurd (congrArg Prod.snd hcontra) (by simp)
      · rintro ⟨hcontra, -⟩
        exact hf hcontra

theorem handshake_wellformed_iff_witness :
    (∀ l ∈ (["version=2"] : List String), (splitKV l).isSome = true) ∧
    (handshake ["git-filter-client", "version=2"] =
        ([.line "git-filter-server", .line "version=2", .flush], .proceeded) ↔
      ("git-filter-client" = "git-filter-client" ∧
        hasVersion2 ["version=2"] = true)) :=
  ⟨by decide,
    (handshake_wellformed_iff "git-filter-client" ["version=2"] (by decide)).2⟩

/-! ### Filter per-command processing (filter.py 119-152)

After the command/pathname headers and the payload packets are read, the
server writes `status=success` + flush; for `clean` it computes the digest
of the file at `pathname` (note: of the file on disk, the received payload
packets are discarded), writes the digest back as a packet, then runs the
anchor-store block and finishes with two flushes.  The anchor-store block
is `if os.path.join(anchor_path): os.unlink(pathname) else:
os.rename(pathname, anchor_path)` — `os.path.join` with one argument
returns its argument, a non-empty string, so the condition is always
truthy: the unlink branch always runs and the rename-into-the-anchor-store
branch is dead code. -/

inductive FEntry where
  | regular (content : String)
  | symlink (target : String)
deriving DecidableEq

structure FilterState where
  entries : List (String × FEntry)
deriving DecidableEq

inductive CleanResult where
  | ok (st : FilterState) (out : List Pkt)
  | ioError (st : FilterState) (out : List Pkt)
deriving DecidableEq

/-- `os.path.join` applied to a single path returns it unchanged. -/
def osPathJoin1 (p : String) : String := p

/-- Reading the file at `p` (`compute_digest` opens it), following one
level of symlink; `none` models the IOError on a missing file. -/
def readFile (st : FilterState) (p : String) : Option String :=
  match lookup st.entries p with
  | some (.regular c) => some c
  | some (.symlink t) =>
    match lookup st.entries t with
    | some (.regular c) => some c
    | _ => none
  | none => none

/-- The per-command tail of `cmd_process` (filter.py 134-152), from the
`status=success` reply onwards. -/
def processCommand (digestOf : String → String) (st : FilterState)
    (command pathname : String) : CleanResult :=
  let out := [Pkt.line "status=success", Pkt.flush]
  if command = "clean" then
    match readFile st pathname with
    | some content =>
      let digest := digestOf content
      let out := out ++ [Pkt.raw digest]
      let anchorPath := ".git/git-big/anchors/" ++ digest
      let st :=
        if ¬ osPathJoin1 anchorPath = "" then
          (⟨removeKey st.entries pathname⟩ : FilterState)
        else
          ⟨setItem (removeKey st.entries pathname) anchorPath (.regular content)⟩
      let st : FilterState := ⟨setItem st.entries pathname (.symlink anchorPath)⟩
      .ok st (out ++ [Pkt.flush, Pkt.flush])
    | none => .ioError st out
  else
    .ok st (out ++ [Pkt.flush, Pkt.flush])

/-- C4 (code bug): a clean command on big.bin containing hello, with an
empty anchor store, does reply status=success + flush, write the digest
packet and terminate with two flushes — but the original bytes are never
moved into the anchor store: the path is unlinked and replaced by a
symlink to an anchor that does not exist (the truthy `os.path.join`
condition makes the rename branch dead code; `os.path.exists` was clearly
intended), so the content hello survives nowhere in the resulting state. -/
theorem clean_loses_bytes :
    processCommand (fun s => "sha-" ++ s)
        ⟨[("big.bin", FEntry.regular "hello")]⟩ "clean" "big.bin" =
      .ok ⟨[("big.bin", FEntry.symlink ".git/git-big/anchors/sha-hello")]⟩
        [.line "status=success", .flush, .raw "sha-hello", .flush, .flush] ∧
    lookup [("big.bin", FEntry.symlink ".git/git-big/anchors/sha-hello")]
      ".git/git-big/anchors/sha-hello" = none := by
  exact ⟨by decide, by decide⟩

end GitBig
